import Mathlib

/-!
Verification of the lite-rpc core against its specification.

Each Rust function relevant to the claims is shallowly embedded as a pure
Lean function: the mutable state (atomic counters, maps behind locks) becomes
an explicit state value, channel receives and I/O steps become explicit input
values describing their outcome, and `u64`/`usize` counters become `Nat`
(slot and batch arithmetic never approaches the wrap-around range).
-/

set_option autoImplicit false

namespace LiteRpc

/- ------------------------------------------------------------------ -/
/- Slot clock: core/src/slot_clock.rs                                  -/
/- ------------------------------------------------------------------ -/

/-- Constant from core/src/slot_clock.rs: the 400 ms receive timeout used by
`set_slot` (one slot lasts about 400 ms). -/
def AVERAGE_SLOT_CHANGE_TIME_IN_MILLIS : Nat := 400

/-- State of `SlotClock` (core/src/slot_clock.rs): `current_slot` is the last
verified slot from the validator ("observed"), `estimated_slot` the
extrapolated slot used when updates lag. Both are atomic `u64` counters in the
source, embedded as `Nat`. -/
structure SlotClock where
  current_slot : Nat
  estimated_slot : Nat
  deriving DecidableEq, Repr

/-- The state produced by `SlotClock::default()`: both counters are zero. -/
def slotClockDefault : SlotClock := ⟨0, 0⟩

/-- Outcome of awaiting the slot-update channel under the 400 ms timeout in
`set_slot`: a slot arrived (`Ok(Some(slot))`), the channel closed
(`Ok(None)`), or the timeout elapsed (`Err(_)`). -/
inductive RecvOutcome where
  | received (slot : Nat)
  | closed
  | timedOut
  deriving DecidableEq, Repr

/-- Shallow embedding of `SlotClock::set_slot` (core/src/slot_clock.rs lines
30-62). The two counters are loaded at entry; on `Ok(Some(slot))` with
`slot > current_slot` the current slot is stored and, when the loaded
`current_slot > estimated_slot`, the estimated slot is set to `slot`; on
`Ok(None)` nothing changes; on timeout the estimated slot is incremented by
one when `estimated_slot < current_slot + 32`. The function returns the new
state together with the final load of `estimated_slot` (the return value of
the Rust function). -/
def set_slot (clock : SlotClock) (r : RecvOutcome) : SlotClock × Nat :=
  let current_slot := clock.current_slot
  let estimated_slot := clock.estimated_slot
  let clock2 : SlotClock :=
    match r with
    | .received slot =>
        if slot > current_slot then
          let c1 := { clock with current_slot := slot }
          if current_slot > estimated_slot then { c1 with estimated_slot := slot } else c1
        else clock
    | .closed => clock
    | .timedOut =>
        if estimated_slot < current_slot + 32 then
          { clock with estimated_slot := estimated_slot + 1 }
        else clock
  (clock2, clock2.estimated_slot)

/- ------------------------------------------------------------------ -/
/- Theorems for claims C2 and C3                                       -/
/- ------------------------------------------------------------------ -/

/-- C2 (counterexample): the claimed invariant `observed ≤ estimated` is
broken after one call to `set_slot` on the initial state when the update
channel delivers slot 100: the observed slot becomes 100 while the estimated
slot stays 0. -/
theorem slot_clock_invariant_cex :
    ¬ ((set_slot slotClockDefault (.received 100)).1.current_slot ≤
        (set_slot slotClockDefault (.received 100)).1.estimated_slot) := by
  decide

/-- C2 (amended): only the upper half of the claimed invariant holds: the
estimated slot never exceeds the observed slot by more than 32, initially and
after every call to `set_slot`, whatever arrives on the update channel or
whether the receive times out. The lower bound `observed ≤ estimated` does
not hold (see the counterexample). -/
theorem slot_clock_drift_upper_invariant :
    slotClockDefault.estimated_slot ≤ slotClockDefault.current_slot + 32 ∧
    ∀ (clock : SlotClock) (r : RecvOutcome),
      clock.estimated_slot ≤ clock.current_slot + 32 →
      (set_slot clock r).1.estimated_slot ≤ (set_slot clock r).1.current_slot + 32 := by
  refine ⟨by decide, ?_⟩
  intro clock r h
  cases r <;> simp only [set_slot] <;> (try split_ifs) <;> simp_all <;> omega

/-- Witness for C2's amended theorem at a concrete state and input. -/
theorem slot_clock_drift_upper_invariant_witness :
    (set_slot ⟨10, 20⟩ .timedOut).1.estimated_slot ≤
      (set_slot ⟨10, 20⟩ .timedOut).1.current_slot + 32 :=
  slot_clock_drift_upper_invariant.2 ⟨10, 20⟩ .timedOut (by decide)

/-- C3: functional behaviour of `set_slot`. When a slot greater than the
observed one arrives, the observed slot advances to it and the estimated slot
is advanced to it exactly when it had fallen behind the observed slot; when a
slot not greater than the observed one arrives, the state is unchanged (so the
observed slot never decreases, which also holds for every input); on timeout
the estimated slot is incremented by exactly one iff `estimated < observed +
32`, the observed slot being untouched; and the call returns the final
estimated slot. -/
theorem set_slot_functional_spec (clock : SlotClock) :
    (∀ s, s > clock.current_slot →
      (set_slot clock (.received s)).1.current_slot = s ∧
      (set_slot clock (.received s)).1.estimated_slot =
        (if clock.estimated_slot < clock.current_slot then s else clock.estimated_slot)) ∧
    (∀ s, ¬ s > clock.current_slot →
      set_slot clock (.received s) = (clock, clock.estimated_slot)) ∧
    (∀ r, clock.current_slot ≤ (set_slot clock r).1.current_slot) ∧
    ((set_slot clock .timedOut).1.estimated_slot =
      if clock.estimated_slot < clock.current_slot + 32 then clock.estimated_slot + 1
      else clock.estimated_slot) ∧
    ((set_slot clock .timedOut).1.current_slot = clock.current_slot) ∧
    (∀ r, (set_slot clock r).2 = (set_slot clock r).1.estimated_slot) := by
  refine ⟨?_, ?_, ?_, ?_, ?_, ?_⟩
  · intro s hs
    simp only [set_slot]
    split_ifs <;> simp_all <;> omega
  · intro s hs
    simp only [set_slot]
    split_ifs <;> simp_all
  · intro r
    cases r <;> simp only [set_slot] <;> (try split_ifs) <;> simp_all <;> omega
  · simp only [set_slot]
    split_ifs <;> simp_all
  · simp only [set_slot]
    split_ifs <;> simp_all
  · intro r
    cases r <;> simp only [set_slot] <;> split_ifs <;> simp_all

/-- Witness for C3's theorem: concrete instantiations of each hypothetical
conjunct. -/
theorem set_slot_functional_spec_witness :
    ((set_slot ⟨5, 3⟩ (.received 9)).1.current_slot = 9 ∧
      (set_slot ⟨5, 3⟩ (.received 9)).1.estimated_slot =
        (if (3 : Nat) < 5 then 9 else 3)) ∧
    set_slot ⟨5, 7⟩ (.received 4) = (⟨5, 7⟩, 7) := by
  refine ⟨?_, ?_⟩
  · exact (set_slot_functional_spec ⟨5, 3⟩).1 9 (by decide)
  · exact (set_slot_functional_spec ⟨5, 7⟩).2.1 4 (by decide)

/- ------------------------------------------------------------------ -/
/- Block data model                                                    -/
/- ------------------------------------------------------------------ -/

/-- Modelled from the spec: the `Commitment` type of
`solana_lite_rpc_core::commitment_utils` is not among the provided sources;
the spec's glossary fixes it as the ordinal finality level with
processed < confirmed < finalized. -/
inductive Commitment where
  | processed
  | confirmed
  | finalized
  deriving DecidableEq, Repr

/-- Ordinal of a commitment level (processed = 0, confirmed = 1,
finalized = 2). -/
def Commitment.ord : Commitment → Nat
  | .processed => 0
  | .confirmed => 1
  | .finalized => 2

/-- The strict comparison `commitment_block > commitment_store` performed by
the block store on save. -/
def commitmentGt (a b : Commitment) : Bool :=
  decide (b.ord < a.ord)

/-- A `ProducedBlock` as flowing out of the multiplexer and into the block
stores. Only `slot` and the commitment are inspected by the embedded code;
the remaining fields (parent slot, blockhash, block height, transactions, ...)
are abstracted into the opaque `payload`. -/
structure ProducedBlock where
  slot : Nat
  commitment_config : Commitment
  payload : Nat
  deriving DecidableEq, Repr

/- ------------------------------------------------------------------ -/
/- Block multiplexer: cluster-endpoints/examples/grpc_using_streams.rs -/
/- ------------------------------------------------------------------ -/

/-- A geyser `SubscribeUpdate` frame as consumed by the multiplexer: either a
block update (`UpdateOneof::Block`, carrying its slot and, opaquely, the rest
of the block body) or any other update kind (slot, account, ...
notifications). -/
inductive SubscribeUpdate where
  | block (slot : Nat) (payload : Nat)
  | other
  deriving DecidableEq, Repr

/-- Modelled from the spec: `map_produced_block` of
`solana_lite_rpc_cluster_endpoints::grpc_subscription` is not among the
provided sources; per the spec the multiplexer "decodes the block" into a
`ProducedBlock`, preserving the update's slot and stamping the subscription's
commitment config. -/
def map_produced_block (slot : Nat) (payload : Nat)
    (commitment_config : Commitment) : ProducedBlock :=
  ⟨slot, commitment_config, payload⟩

/-- The command computed per incoming message by the multiplexer
(grpc_using_streams.rs lines 139-145). -/
inductive BlockCmd where
  | ForwardBlock (block : ProducedBlock)
  | DiscardBlockBehindTip (slot : Nat)
  | SkipMessage
  deriving DecidableEq, Repr

/-- Shallow embedding of `map_filter_block_message` (grpc_using_streams.rs
lines 147-162): non-block messages are skipped; a block message whose slot is
at most `current_slot` is discarded as behind-tip when `current_slot` is
non-zero; otherwise the block is decoded and forwarded. -/
def map_filter_block_message (current_slot : Nat)
    (update_message : SubscribeUpdate) (commitment_config : Commitment) :
    BlockCmd :=
  match update_message with
  | .block slot payload =>
      if slot ≤ current_slot ∧ current_slot ≠ 0 then
        .DiscardBlockBehindTip slot
      else
        .ForwardBlock (map_produced_block slot payload commitment_config)
  | .other => .SkipMessage

/-- One iteration of the multiplexer's main loop (grpc_using_streams.rs lines
103-133): on `ForwardBlock` the block is emitted and `current_slot` becomes
the block's slot; on `DiscardBlockBehindTip` and `SkipMessage` nothing is
emitted and the state is unchanged. -/
def multiplex_step (current_slot : Nat) (msg : SubscribeUpdate)
    (commitment_config : Commitment) : Nat × Option ProducedBlock :=
  match map_filter_block_message current_slot msg commitment_config with
  | .ForwardBlock block => (block.slot, some block)
  | .DiscardBlockBehindTip _ => (current_slot, none)
  | .SkipMessage => (current_slot, none)

/-- The multiplexer's main loop run over a finite prefix of the fanned-in
message sequence, collecting the blocks sent on the output channel. -/
def multiplex_run (commitment_config : Commitment) (current_slot : Nat) :
    List SubscribeUpdate → List ProducedBlock
  | [] => []
  | msg :: rest =>
      match multiplex_step current_slot msg commitment_config with
      | (slot2, some block) => block :: multiplex_run commitment_config slot2 rest
      | (slot2, none) => multiplex_run commitment_config slot2 rest

/-- Helper for C1: from any state, the emitted slots are strictly increasing
provided every incoming block update carries a non-zero slot, and every
emitted slot exceeds the entry state when that is non-zero. -/
theorem multiplex_run_pairwise (commitment_config : Commitment) :
    ∀ (msgs : List SubscribeUpdate) (cur : Nat),
      (∀ s p, SubscribeUpdate.block s p ∈ msgs → s ≠ 0) →
      List.Pairwise (· < ·)
          ((multiplex_run commitment_config cur msgs).map ProducedBlock.slot) ∧
      (∀ b ∈ multiplex_run commitment_config cur msgs, cur ≠ 0 → cur < b.slot) := by
  intro msgs
  induction msgs with
  | nil => intro cur _; simp [multiplex_run]
  | cons msg rest ih =>
    intro cur h
    have hrest : ∀ s p, SubscribeUpdate.block s p ∈ rest → s ≠ 0 :=
      fun s p hm => h s p (List.mem_cons_of_mem _ hm)
    match msg with
    | .other =>
        simpa [multiplex_run, multiplex_step, map_filter_block_message]
          using ih cur hrest
    | .block s p =>
        have hs : s ≠ 0 := h s p (List.mem_cons_self _ _)
        by_cases hcase : s ≤ cur ∧ cur ≠ 0
        · simpa [multiplex_run, multiplex_step, map_filter_block_message, hcase]
            using ih cur hrest
        · have ihrest := ih s hrest
          have hforward :
              multiplex_run commitment_config cur (SubscribeUpdate.block s p :: rest) =
                map_produced_block s p commitment_config ::
                  multiplex_run commitment_config s rest := by
            simp [multiplex_run, multiplex_step, map_filter_block_message, hcase,
              map_produced_block]
          rw [hforward]
          constructor
          · rw [List.map_cons, List.pairwise_cons]
            refine ⟨?_, ihrest.1⟩
            intro a ha
            rcases List.mem_map.mp ha with ⟨b, hb, rfl⟩
            exact ihrest.2 b hb hs
          · intro b hb hcur
            have hcs : cur < s := by
              rcases Decidable.not_and_iff_or_not.mp hcase with h1 | h1
              · omega
              · exact absurd hcur h1
            rcases List.mem_cons.mp hb with rfl | hb2
            · simpa [map_produced_block] using hcs
            · exact lt_trans hcs (ihrest.2 b hb2 hs)

/-- C1 (counterexample): fed two block updates both at slot 0, the multiplexer
forwards both (slot 0 coincides with the "nothing forwarded yet" sentinel), so
its output slot sequence `[0, 0]` is not strictly increasing, refuting the
claim for arbitrary input sequences. -/
theorem multiplex_strict_increase_cex :
    ¬ List.Pairwise (· < ·)
        ((multiplex_run .confirmed 0
            [.block 0 1, .block 0 2]).map ProducedBlock.slot) := by
  decide

/-- C1 (amended): provided every incoming block update carries a non-zero slot
(slot 0 coincides with the multiplexer's "nothing forwarded yet" sentinel),
the slots of the blocks emitted from the initial state are strictly
increasing; a block update whose slot is at most the last forwarded slot is,
when that is non-zero, discarded without emitting and without changing the
last forwarded slot; and feeding blocks with slots [10, 12, 11, 13] yields
output slots [10, 12, 13]. -/
theorem multiplex_output_slots (commitment_config : Commitment) :
    (∀ (msgs : List SubscribeUpdate),
      (∀ s p, SubscribeUpdate.block s p ∈ msgs → s ≠ 0) →
      List.Pairwise (· < ·)
        ((multiplex_run commitment_config 0 msgs).map ProducedBlock.slot)) ∧
    (∀ (cur s p : Nat), s ≤ cur → cur ≠ 0 →
      multiplex_step cur (.block s p) commitment_config = (cur, none)) ∧
    ((multiplex_run commitment_config 0
        [.block 10 0, .block 12 0, .block 11 0, .block 13 0]).map
          ProducedBlock.slot = [10, 12, 13]) := by
  refine ⟨?_, ?_, ?_⟩
  · intro msgs h
    exact (multiplex_run_pairwise commitment_config msgs 0 h).1
  · intro cur s p hle hne
    simp [multiplex_step, map_filter_block_message, hle, hne]
  · cases commitment_config <;> decide

/-- Witness for C1's amended theorem: concrete instantiations discharging each
hypothesis. -/
theorem multiplex_output_slots_witness :
    List.Pairwise (· < ·)
      ((multiplex_run .confirmed 0 [.block 3 0, .block 2 0]).map
        ProducedBlock.slot) ∧
    multiplex_step 7 (.block 5 0) .confirmed = (7, none) := by
  constructor
  · refine (multiplex_output_slots .confirmed).1 [.block 3 0, .block 2 0] ?_
    intro s p hm
    rcases List.mem_cons.mp hm with heq | hm2
    · cases heq; omega
    · rcases List.mem_cons.mp hm2 with heq | hm3
      · cases heq; omega
      · cases hm3
  · exact (multiplex_output_slots .confirmed).2.1 7 5 0 (by omega) (by omega)

/- ------------------------------------------------------------------ -/
/- Transaction batch forwarder: services/src/tx_service/tx_batch_fwd.rs -/
/- ------------------------------------------------------------------ -/

/-- Constant from tx_batch_fwd.rs line 38: the batch accumulation window in
milliseconds. -/
def INTERVAL_PER_BATCH_IN_MS : Nat := 50

/-- Constant from tx_batch_fwd.rs line 39: the reference batch size (Solana's
sig-verify stage is rate limited to 2000 txs per 50 ms). -/
def MAX_BATCH_SIZE_IN_PER_INTERVAL : Nat := 2000

/-- A `TxInfo` item received on the batch channel (tx_batch_fwd.rs lines
41-47); the wire transaction bytes are embedded as a list of bytes. -/
structure TxInfo where
  signature : String
  slot : Nat
  tx : List Nat
  last_valid_blockheight : Nat
  deriving DecidableEq, Repr

/-- A `TxMeta` value stored in the tx store: status (None while pending) and
the transaction's last valid block height. `TxMeta::new(h)` is `⟨none, h⟩`. -/
structure TxMeta where
  status : Option String
  last_valid_blockheight : Nat
  deriving DecidableEq, Repr

/-- The tx store (`ledger.txs`, a concurrent map signature → TxMeta) embedded
as an association list with unique keys. -/
abbrev TxStore : Type := List (String × TxMeta)

/-- Map insert: overwrites the value if the signature is present, otherwise
appends a new entry. -/
def txsInsert : TxStore → String → TxMeta → TxStore
  | [], sig, meta => [(sig, meta)]
  | (s, m) :: rest, sig, meta =>
      if s = sig then (sig, meta) :: rest else (s, m) :: txsInsert rest sig meta

/-- Membership test on the tx store (`contains_key`). -/
def containsKey (store : TxStore) (sig : String) : Bool :=
  store.any (fun e => decide (e.1 = sig))

/-- One event observed by the batch loop's `timeout(recv)` within the 50 ms
window: either an item arrived or the channel was found closed. The window's
final timeout is modelled by the event list running out. -/
inductive RecvEvent where
  | item (tx : TxInfo)
  | closed
  deriving DecidableEq, Repr

/-- Shallow embedding of the accumulation loop of `TxBatchFwd::execute`
(tx_batch_fwd.rs lines 148-178): while the batch length is at most
`MAX_BATCH_SIZE_IN_PER_INTERVAL`, receive; a timeout (exhausted events)
breaks out with the batch; a closed channel fails with "Channel
Disconnected"; an item already present in the tx store is skipped; any other
item is pushed onto the batch. -/
def batch_recv_loop (store : TxStore) (acc : List TxInfo) :
    List RecvEvent → Except String (List TxInfo)
  | [] => Except.ok acc
  | e :: rest =>
      if acc.length ≤ MAX_BATCH_SIZE_IN_PER_INTERVAL then
        match e with
        | RecvEvent.closed => Except.error "Channel Disconnected"
        | RecvEvent.item tx =>
            if containsKey store tx.signature then batch_recv_loop store acc rest
            else batch_recv_loop store (acc ++ [tx]) rest
      else Except.ok acc

/-- Shallow embedding of `TxBatchFwd::forward_txs` (tx_batch_fwd.rs lines
61-133) restricted to its effect on the tx store: an early return on an empty
batch, then two passes over the batch each inserting `TxMeta` (status `none`,
the item's last valid block height) under the item's signature; each item is
also sent once to the TPU client (the send itself and the metrics and
notifications are I/O and are modelled by `forward_count` below). -/
def forward_txs (store : TxStore) (batch : List TxInfo) : TxStore :=
  if batch.isEmpty then store
  else
    let store1 := batch.foldl
      (fun s t => txsInsert s t.signature ⟨none, t.last_valid_blockheight⟩) store
    batch.foldl
      (fun s t => txsInsert s t.signature ⟨none, t.last_valid_blockheight⟩) store1

/-- Number of times a signature is sent to the TPU client when a batch is
forwarded: `forward_txs` calls `send_transaction` once per batch element. -/
def forward_count (batch : List TxInfo) (sig : String) : Nat :=
  batch.countP (fun t => decide (t.signature = sig))

/-- One full iteration of `TxBatchFwd::execute`'s outer loop: gather a batch
from the channel events, skip forwarding when the batch is empty (the
`continue`), otherwise forward it and update the store. Returns the new store
and the batch handed to `forward_txs`. -/
def execute_cycle (store : TxStore) (events : List RecvEvent) :
    Except String (TxStore × List TxInfo) :=
  match batch_recv_loop store [] events with
  | Except.error e => Except.error e
  | Except.ok batch =>
      if batch.isEmpty then Except.ok (store, [])
      else Except.ok (forward_txs store batch, batch)

/-- A sample transaction used for concrete runs of the batch loop. -/
def sampleTx : TxInfo := ⟨"a", 0, [], 0⟩

/-- Helper for C4: on a store that contains none of the signatures, a run of
`n` item events grows the batch to `min (acc + n) 2001`: the loop keeps
receiving while the batch length is at most 2000, so it stops only once the
batch holds 2001 items (or the events run out). -/
theorem batch_recv_loop_replicate_ok (tx : TxInfo) :
    ∀ (n : Nat) (acc : List TxInfo),
      ∃ l, batch_recv_loop [] acc (List.replicate n (RecvEvent.item tx)) =
          Except.ok l ∧
        l.length = if acc.length > MAX_BATCH_SIZE_IN_PER_INTERVAL then acc.length
          else min (acc.length + n) (MAX_BATCH_SIZE_IN_PER_INTERVAL + 1) := by
  intro n
  induction n with
  | zero =>
    intro acc
    refine ⟨acc, rfl, ?_⟩
    simp only [MAX_BATCH_SIZE_IN_PER_INTERVAL]
    split <;> omega
  | succ n ih =>
    intro acc
    by_cases hlen : acc.length ≤ MAX_BATCH_SIZE_IN_PER_INTERVAL
    · have hstep : batch_recv_loop [] acc
          (List.replicate (n + 1) (RecvEvent.item tx)) =
          batch_recv_loop [] (acc ++ [tx]) (List.replicate n (RecvEvent.item tx)) := by
        rw [List.replicate, batch_recv_loop]
        simp [hlen, containsKey]
      rcases ih (acc ++ [tx]) with ⟨l, hl, hllen⟩
      refine ⟨l, by rw [hstep, hl], ?_⟩
      rw [hllen]
      simp only [List.length_append, List.length_singleton,
        MAX_BATCH_SIZE_IN_PER_INTERVAL] at *
      split <;> split <;> omega
    · refine ⟨acc, ?_, ?_⟩
      · rw [List.replicate, batch_recv_loop]
        simp [hlen]
      · simp only [MAX_BATCH_SIZE_IN_PER_INTERVAL] at *
        split <;> omega

/-- C4: the accumulation loop's guard is `len <= MAX_BATCH_SIZE_IN_PER_INTERVAL`,
an off-by-one against the constant: with 2001 fresh items available in one
window the emitted batch holds 2001 transactions, exceeding the claimed
maximum of 2000. -/
theorem batch_exceeds_max_batch_size :
    ∃ l, batch_recv_loop [] [] (List.replicate 2001 (RecvEvent.item sampleTx)) =
        Except.ok l ∧ MAX_BATCH_SIZE_IN_PER_INTERVAL < l.length := by
  rcases batch_recv_loop_replicate_ok sampleTx 2001 [] with ⟨l, hl, hlen⟩
  refine ⟨l, hl, ?_⟩
  simp only [MAX_BATCH_SIZE_IN_PER_INTERVAL, List.length_nil] at hlen ⊢
  norm_num at hlen
  omega

/-- Helper for C5: an item whose signature is already in the tx store is
skipped by the batch loop: processing it is identical to not receiving it at
all; in particular the batch and the store are untouched and no error is
raised. -/
theorem batch_recv_loop_skips_duplicate (store : TxStore) (acc : List TxInfo)
    (tx : TxInfo) (rest : List RecvEvent)
    (h : containsKey store tx.signature = true) :
    batch_recv_loop store acc (RecvEvent.item tx :: rest) =
      batch_recv_loop store acc rest := by
  by_cases hlen : acc.length ≤ MAX_BATCH_SIZE_IN_PER_INTERVAL
  · simp [batch_recv_loop, hlen, h]
  · cases rest <;> simp [batch_recv_loop, hlen]

/-- Helper for C5: a window that only offers an already-stored signature
forwards nothing and leaves the store unchanged. -/
theorem execute_cycle_duplicate (store : TxStore) (tx : TxInfo)
    (h : containsKey store tx.signature = true) :
    execute_cycle store [RecvEvent.item tx] = Except.ok (store, []) := by
  unfold execute_cycle
  rw [batch_recv_loop_skips_duplicate store [] tx [] h]
  simp [batch_recv_loop]

/-- Helper for C5: inserting a signature makes it present. -/
theorem containsKey_txsInsert_self (store : TxStore) (sig : String)
    (meta : TxMeta) : containsKey (txsInsert store sig meta) sig = true := by
  induction store with
  | nil => simp [txsInsert, containsKey]
  | cons e rest ih =>
    rcases e with ⟨s, m⟩
    by_cases hs : s = sig
    · simp [txsInsert, hs, containsKey]
    · simp only [txsInsert, if_neg hs]
      simp [containsKey] at ih ⊢
      exact Or.inr ih

/-- C5 (counterexample): two submissions of the same signature that land in
the same 50 ms batch window are both forwarded: the dedup check consults the
tx store, which is only updated when the batch is forwarded, so the claim's
"exactly one forward" fails. -/
theorem dedup_same_window_cex :
    ∃ store2,
      execute_cycle [] [RecvEvent.item sampleTx, RecvEvent.item sampleTx] =
        Except.ok (store2, [sampleTx, sampleTx]) ∧
      forward_count [sampleTx, sampleTx] sampleTx.signature = 2 ∧
      ¬ forward_count [sampleTx, sampleTx] sampleTx.signature = 1 :=
  ⟨forward_txs [] [sampleTx, sampleTx], rfl, by decide, by decide⟩

/-- C5 (amended): a submission whose signature is already in the tx store when
it is dequeued is dropped silently: no error, it is not added to the batch
(processing it equals not receiving it), nothing is forwarded and the store
does not change (in particular it does not grow); and a signature submitted
twice is forwarded exactly once provided the two submissions are processed in
different batch windows — in-window duplicates are not deduplicated, since
the store is only updated when a batch is forwarded. -/
theorem dedup_drops_stored_signature :
    (∀ (store : TxStore) (acc : List TxInfo) (tx : TxInfo)
        (rest : List RecvEvent),
      containsKey store tx.signature = true →
      batch_recv_loop store acc (RecvEvent.item tx :: rest) =
        batch_recv_loop store acc rest) ∧
    (∀ (store : TxStore) (tx : TxInfo),
      containsKey store tx.signature = true →
      execute_cycle store [RecvEvent.item tx] = Except.ok (store, [])) ∧
    (∀ (store : TxStore) (tx : TxInfo),
      containsKey store tx.signature = false →
      ∃ store1,
        execute_cycle store [RecvEvent.item tx] = Except.ok (store1, [tx]) ∧
        forward_count [tx] tx.signature = 1 ∧
        containsKey store1 tx.signature = true ∧
        execute_cycle store1 [RecvEvent.item tx] = Except.ok (store1, [])) := by
  refine ⟨batch_recv_loop_skips_duplicate, execute_cycle_duplicate, ?_⟩
  intro store tx h
  refine ⟨forward_txs store [tx], ?_, ?_, ?_, ?_⟩
  · unfold execute_cycle
    rw [batch_recv_loop]
    simp only [List.length_nil, MAX_BATCH_SIZE_IN_PER_INTERVAL]
    rw [if_pos (by omega)]
    simp only [h, Bool.false_eq_true, if_false, List.nil_append]
    rw [batch_recv_loop]
    simp
  · simp [forward_count]
  · simp only [forward_txs, List.isEmpty_cons, List.foldl]
    exact containsKey_txsInsert_self _ _ _
  · exact execute_cycle_duplicate _ _
      (by simp only [forward_txs, List.isEmpty_cons, List.foldl]
          exact containsKey_txsInsert_self _ _ _)

/-- Witness for C5's amended theorem: concrete instantiations discharging each
hypothesis. -/
theorem dedup_drops_stored_signature_witness :
    batch_recv_loop [("a", ⟨none, 0⟩)] [] [RecvEvent.item sampleTx] =
      batch_recv_loop [("a", ⟨none, 0⟩)] [] [] ∧
    execute_cycle [("a", ⟨none, 0⟩)] [RecvEvent.item sampleTx] =
      Except.ok ([("a", ⟨none, 0⟩)], []) ∧
    ∃ store1,
      execute_cycle [] [RecvEvent.item sampleTx] = Except.ok (store1, [sampleTx]) ∧
      forward_count [sampleTx] sampleTx.signature = 1 ∧
      containsKey store1 sampleTx.signature = true ∧
      execute_cycle store1 [RecvEvent.item sampleTx] = Except.ok (store1, []) := by
  refine ⟨?_, ?_, ?_⟩
  · exact dedup_drops_stored_signature.1 [("a", ⟨none, 0⟩)] [] sampleTx []
      (by decide)
  · exact dedup_drops_stored_signature.2.1 [("a", ⟨none, 0⟩)] sampleTx (by decide)
  · exact dedup_drops_stored_signature.2.2 [] sampleTx (by decide)

/- ------------------------------------------------------------------ -/
/- QUIC send attempt: quic-forward-proxy/src/quic_connection_utils.rs  -/
/- ------------------------------------------------------------------ -/

/-- The error type of `QuicConnectionUtils` (quic_connection_utils.rs lines
25-28): a timeout, or a connection error tagged with whether a retry is
allowed. -/
inductive QuicConnectionError where
  | TimeOut
  | ConnectionError (retry : Bool)
  deriving DecidableEq, Repr

/-- Outcome of one awaited I/O step (open_uni, write_all, finish) under its
`tokio::time::timeout`: the step succeeded, the step returned an error, or
the timeout elapsed first. -/
inductive StepResult where
  | ok
  | failed
  | timedOut
  deriving DecidableEq, Repr

/-- Shallow embedding of `QuicConnectionUtils::write_all`
(quic_connection_utils.rs lines 150-198) over the outcomes of its two awaited
steps: a timed-out write is `TimeOut`; a write error is
`ConnectionError { retry: true }`; then a timed-out finish is `TimeOut` and a
finish error is `ConnectionError { retry: false }`; otherwise `Ok(())`. -/
def write_all (write_step finish_step : StepResult) :
    Except QuicConnectionError Unit :=
  match write_step with
  | .timedOut => Except.error QuicConnectionError.TimeOut
  | .failed => Except.error (QuicConnectionError.ConnectionError true)
  | .ok =>
      match finish_step with
      | .timedOut => Except.error QuicConnectionError.TimeOut
      | .failed => Except.error (QuicConnectionError.ConnectionError false)
      | .ok => Except.ok ()

/-- Shallow embedding of `QuicConnectionUtils::open_unistream`
(quic_connection_utils.rs lines 245-254): success yields the stream (elided),
an open error is `ConnectionError { retry: true }`, a timeout is `TimeOut`. -/
def open_unistream (open_step : StepResult) : Except QuicConnectionError Unit :=
  match open_step with
  | .ok => Except.ok ()
  | .failed => Except.error (QuicConnectionError.ConnectionError true)
  | .timedOut => Except.error QuicConnectionError.TimeOut

/-- One full send attempt over a unidirectional stream: open the unistream,
then write and finish, propagating the first error. -/
def send_attempt (open_step write_step finish_step : StepResult) :
    Except QuicConnectionError Unit :=
  match open_unistream open_step with
  | Except.error e => Except.error e
  | Except.ok _ => write_all write_step finish_step

/-- C6: the error taxonomy of a send attempt. A timeout of the open, write or
finish step surfaces as `TimeOut`; a write error surfaces as a recoverable
`ConnectionError { retry: true }`; a stream-finish error surfaces as a
non-recoverable `ConnectionError { retry: false }`; on full success the
result is `Ok`. -/
theorem quic_send_error_taxonomy :
    (∀ w f, send_attempt .timedOut w f =
      Except.error QuicConnectionError.TimeOut) ∧
    (∀ f, send_attempt .ok .timedOut f =
      Except.error QuicConnectionError.TimeOut) ∧
    (send_attempt .ok .ok .timedOut =
      Except.error QuicConnectionError.TimeOut) ∧
    (∀ f, send_attempt .ok .failed f =
      Except.error (QuicConnectionError.ConnectionError true)) ∧
    (send_attempt .ok .ok .failed =
      Except.error (QuicConnectionError.ConnectionError false)) ∧
    (send_attempt .ok .ok .ok = Except.ok ()) :=
  ⟨fun _ _ => rfl, fun _ => rfl, rfl, fun _ => rfl, rfl, rfl⟩

/- ------------------------------------------------------------------ -/
/- Auto-reconnecting connection: quic-forward-proxy/src/quinn_auto_reconnect.rs -/
/- ------------------------------------------------------------------ -/

/-- A quinn `Connection` as observed by `AutoReconnect`: its stable id and its
close reason (`none` while the connection is live). -/
structure Connection where
  stable_id : Nat
  close_reason : Option Nat
  deriving DecidableEq, Repr

/-- State of `AutoReconnect` (quinn_auto_reconnect.rs lines 11-17): the
current connection slot behind the lock and the reconnect counter. The
endpoint and target address only feed `create_connection`. -/
structure AutoReconnect where
  current : Option Connection
  reconnect_count : Nat
  deriving DecidableEq, Repr

/-- Shallow embedding of `AutoReconnect::refresh` (quinn_auto_reconnect.rs
lines 39-93). `new_connection` stands for the result of `create_connection`,
i.e. of awaiting `endpoint.connect(target_address, "localhost")`; it is only
used on the paths that call it. Fast path (read lock): a current connection
with no close reason is returned as-is. Slow path (write lock, re-checking
the same state): a current connection with a close reason set is replaced by
the new connection and `reconnect_count` is incremented; with no current
connection the new connection is stored without touching `reconnect_count`.
Sequentially the write-lock re-check of a live current connection is
unreachable, since the read-lock fast path already returned it. -/
def refresh (st : AutoReconnect) (new_connection : Connection) :
    AutoReconnect × Connection :=
  match st.current with
  | some conn =>
      if conn.close_reason = none then (st, conn)
      else
        ({ current := some new_connection,
           reconnect_count := st.reconnect_count + 1 }, new_connection)
  | none =>
      ({ current := some new_connection,
         reconnect_count := st.reconnect_count }, new_connection)

/-- C7 (counterexample): with no current connection, `refresh` creates and
stores a connection but does not increment `reconnect_count` (the increment
only happens when a closed connection is replaced), refuting the claim that
every slow-path call increments it. -/
theorem refresh_reconnect_count_cex :
    (refresh ⟨none, 0⟩ ⟨1, none⟩).1.current = some ⟨1, none⟩ ∧
    ¬ (refresh ⟨none, 0⟩ ⟨1, none⟩).1.reconnect_count = 0 + 1 := by
  constructor <;> decide

/-- C7 (amended): if a current connection exists with no close reason it is
returned unchanged (fast path); if the current connection has a close reason
set, a new connection (from `endpoint.connect(target, "localhost")`) is
stored, `reconnect_count` is incremented, and the new connection is returned;
if no connection exists, the new connection is stored and returned with
`reconnect_count` unchanged. -/
theorem refresh_spec (st : AutoReconnect) (new_connection : Connection) :
    (∀ conn, st.current = some conn → conn.close_reason = none →
      refresh st new_connection = (st, conn)) ∧
    (∀ conn, st.current = some conn → conn.close_reason ≠ none →
      refresh st new_connection =
        ({ current := some new_connection,
           reconnect_count := st.reconnect_count + 1 }, new_connection)) ∧
    (st.current = none →
      refresh st new_connection =
        ({ current := some new_connection,
           reconnect_count := st.reconnect_count }, new_connection)) := by
  refine ⟨?_, ?_, ?_⟩
  · intro conn hc hr
    simp [refresh, hc, hr]
  · intro conn hc hr
    simp [refresh, hc, hr]
  · intro hc
    simp [refresh, hc]

/-- Witness for C7's amended theorem: concrete instantiations of all three
cases. -/
theorem refresh_spec_witness :
    refresh ⟨some ⟨7, none⟩, 3⟩ ⟨9, none⟩ = (⟨some ⟨7, none⟩, 3⟩, ⟨7, none⟩) ∧
    refresh ⟨some ⟨7, some 0⟩, 3⟩ ⟨9, none⟩ = (⟨some ⟨9, none⟩, 4⟩, ⟨9, none⟩) ∧
    refresh ⟨none, 3⟩ ⟨9, none⟩ = (⟨some ⟨9, none⟩, 3⟩, ⟨9, none⟩) := by
  refine ⟨?_, ?_, ?_⟩
  · exact (refresh_spec ⟨some ⟨7, none⟩, 3⟩ ⟨9, none⟩).1 ⟨7, none⟩ rfl rfl
  · exact (refresh_spec ⟨some ⟨7, some 0⟩, 3⟩ ⟨9, none⟩).2.1 ⟨7, some 0⟩ rfl
      (by decide)
  · exact (refresh_spec ⟨none, 3⟩ ⟨9, none⟩).2.2 rfl

/- ------------------------------------------------------------------ -/
/- Proxy envelopes: services/src/tpu_utils/quic_proxy_connection_manager.rs -/
/- ------------------------------------------------------------------ -/

/-- A deserialized `VersionedTransaction`, opaque to the forwarding code. -/
abbrev VersionedTransaction : Type := Nat

/-- A `SocketAddr`, opaque to the forwarding code. -/
abbrev SocketAddr : Type := Nat

/-- A validator identity (`Pubkey`, 32 bytes), opaque to the forwarding
code. -/
abbrev Pubkey : Type := Nat

/-- Constant from quic_proxy_connection_manager.rs line 40: at most 20
transactions per stream envelope. -/
def CHUNK_SIZE_PER_STREAM : Nat := 20

/-- The `TpuForwardingRequest` envelope (core's proxy_request_format): the
target TPU address, the target identity and a chunk of transactions. Each
envelope is bincode-serialized and sent on its own unidirectional stream. -/
structure TpuForwardingRequest where
  tpu_target_address : SocketAddr
  target_identity : Pubkey
  transactions : List VersionedTransaction
  deriving DecidableEq, Repr

/-- Rust's `slice::chunks(n)`: splits a list into consecutive chunks of `n`
elements, the last chunk possibly shorter. -/
def chunksOf (n : Nat) : List VersionedTransaction → List (List VersionedTransaction)
  | [] => []
  | x :: xs => (x :: xs.take (n - 1)) :: chunksOf n (xs.drop (n - 1))
termination_by l => l.length
decreasing_by simp [List.length_drop]; omega

/-- The deserialization prologue of `send_copy_of_txs_to_quicproxy`
(quic_proxy_connection_manager.rs lines 213-223): each raw transaction is
bincode-deserialized (modelled by its `Option` outcome) in order, bailing at
the first failure. -/
def deserialize_all :
    List (Option VersionedTransaction) → Except String (List VersionedTransaction)
  | [] => Except.ok []
  | none :: _ => Except.error "deserialize error"
  | some t :: rest =>
      match deserialize_all rest with
      | Except.ok ts => Except.ok (t :: ts)
      | Except.error e => Except.error e

/-- Shallow embedding of
`QuicProxyConnectionManager::send_copy_of_txs_to_quicproxy`
(quic_proxy_connection_manager.rs lines 206-246): deserialize the batch, then
for each chunk of at most `CHUNK_SIZE_PER_STREAM` transactions build a
`TpuForwardingRequest` envelope. The returned list holds the envelopes in the
order they are bincode-serialized and sent, each with one `send_uni` call,
i.e. on its own unidirectional stream (serialization and the stream I/O are
abstracted; a failing send bails out of the chunk loop). -/
def send_copy_of_txs_to_quicproxy (raw_tx_batch : List (Option VersionedTransaction))
    (tpu_target_address : SocketAddr) (target_tpu_identity : Pubkey) :
    Except String (List TpuForwardingRequest) :=
  match deserialize_all raw_tx_batch with
  | Except.error e => Except.error e
  | Except.ok txs =>
      Except.ok ((chunksOf CHUNK_SIZE_PER_STREAM txs).map
        (fun chunk => ⟨tpu_target_address, target_tpu_identity, chunk⟩))

/-- Helper for C8: the chunks of a list concatenate back to the list. -/
theorem chunksOf_join (n : Nat) (l : List VersionedTransaction) :
    (chunksOf n l).join = l := by
  induction l using chunksOf.induct n with
  | case1 => simp [chunksOf]
  | case2 x xs ih => simp [chunksOf, ih]

/-- Helper for C8: every chunk has at most `n` elements when `n ≥ 1`. -/
theorem chunksOf_length_le (n : Nat) (hn : 1 ≤ n) :
    ∀ (l : List VersionedTransaction), ∀ c ∈ chunksOf n l, c.length ≤ n := by
  intro l
  induction l using chunksOf.induct n with
  | case1 => simp [chunksOf]
  | case2 x xs ih =>
    intro c hc
    rw [chunksOf] at hc
    rcases List.mem_cons.mp hc with rfl | hc2
    · simp only [List.length_cons, List.length_take]
      omega
    · exact ih c hc2

/-- Helper for C8: deserializing an all-valid batch succeeds with the decoded
transactions in order. -/
theorem deserialize_all_map_some (txs : List VersionedTransaction) :
    deserialize_all (txs.map some) = Except.ok txs := by
  induction txs with
  | nil => rfl
  | cons t rest ih => simp [deserialize_all, ih]

/-- C8: forwarding a batch to the QUIC proxy splits it into envelopes of at
most 20 transactions; every transaction of the batch appears in exactly one
envelope, in order (the envelopes' chunks concatenate back to the batch);
each envelope carries the target TPU address and the target identity and is
sent on its own unidirectional stream. -/
theorem proxy_envelopes_spec (txs : List VersionedTransaction)
    (addr : SocketAddr) (identity : Pubkey) :
    ∃ envelopes,
      send_copy_of_txs_to_quicproxy (txs.map some) addr identity =
        Except.ok envelopes ∧
      (∀ e ∈ envelopes, e.transactions.length ≤ CHUNK_SIZE_PER_STREAM ∧
        e.tpu_target_address = addr ∧ e.target_identity = identity) ∧
      (envelopes.map TpuForwardingRequest.transactions).join = txs := by
  refine ⟨(chunksOf CHUNK_SIZE_PER_STREAM txs).map
    (fun chunk => ⟨addr, identity, chunk⟩), ?_, ?_, ?_⟩
  · simp [send_copy_of_txs_to_quicproxy, deserialize_all_map_some]
  · intro e he
    rcases List.mem_map.mp he with ⟨c, hc, rfl⟩
    exact ⟨chunksOf_length_le CHUNK_SIZE_PER_STREAM (by decide) txs c hc, rfl, rfl⟩
  · have hcomp : (TpuForwardingRequest.transactions ∘ fun chunk =>
        ({ tpu_target_address := addr, target_identity := identity,
           transactions := chunk } : TpuForwardingRequest)) = id := rfl
    rw [List.map_map, hcomp, List.map_id]
    exact chunksOf_join CHUNK_SIZE_PER_STREAM txs

/- ------------------------------------------------------------------ -/
/- In-memory block store: history/src/block_stores/inmemory_block_store.rs -/
/- ------------------------------------------------------------------ -/

/-- The `BTreeMap<Slot, ProducedBlock>` behind the store's lock, embedded as
an association list ordered by slot (the map's iteration order). -/
abbrev BlockMap : Type := List (Nat × ProducedBlock)

/-- Map lookup (`BTreeMap::get` / `get_mut`). -/
def lookupSlot : BlockMap → Nat → Option ProducedBlock
  | [], _ => none
  | (k, b) :: rest, s => if k = s then some b else lookupSlot rest s

/-- Map insert/overwrite: `BTreeMap::insert`, and `*x = block` through
`get_mut` when the key is present; keeps the list ordered. -/
def insertSorted : Nat → ProducedBlock → BlockMap → BlockMap
  | s, b, [] => [(s, b)]
  | s, b, (k, x) :: rest =>
      if s < k then (s, b) :: (k, x) :: rest
      else if s = k then (s, b) :: rest
      else (k, x) :: insertSorted s b rest

/-- Map removal (`BTreeMap::remove`). -/
def eraseSlot : Nat → BlockMap → BlockMap
  | _, [] => []
  | s, (k, x) :: rest => if k = s then rest else (k, x) :: eraseSlot s rest

/-- The key invariant of the `BTreeMap` embedding: keys strictly increase
along the list, so the head key is the smallest. -/
abbrev SortedKeys (m : BlockMap) : Prop :=
  List.Pairwise (· < ·) (m.map Prod.fst)

/-- The `min_slot` computed by `InmemoryBlockStore::store`: the key of
`first_key_value()` (the smallest key of a `BTreeMap`), or 0 when empty. -/
def minSlotOf (m : BlockMap) : Nat :=
  match m.head? with
  | some (k, _) => k
  | none => 0

/-- State of `InmemoryBlockStore` (inmemory_block_store.rs lines 13-16). -/
structure InmemoryBlockStore where
  block_storage : BlockMap
  number_of_blocks_to_store : Nat
  deriving DecidableEq, Repr

/-- Shallow embedding of `InmemoryBlockStore::store` (inmemory_block_store.rs
lines 32-58): when the block's slot is at least `min_slot`, overwrite an
existing entry at that slot only if the new block's commitment ordinal is
strictly higher, insert when the slot is absent, and evict the `min_slot`
entry when the map has grown past `number_of_blocks_to_store`; otherwise the
block is dropped. -/
def InmemoryBlockStore.store (st : InmemoryBlockStore) (block : ProducedBlock) :
    InmemoryBlockStore :=
  let slot := block.slot
  let min_slot := minSlotOf st.block_storage
  if min_slot ≤ slot then
    let storage1 :=
      match lookupSlot st.block_storage slot with
      | some x =>
          if commitmentGt block.commitment_config x.commitment_config then
            insertSorted slot block st.block_storage
          else st.block_storage
      | none => insertSorted slot block st.block_storage
    let storage2 :=
      if st.number_of_blocks_to_store < storage1.length then
        eraseSlot min_slot storage1
      else storage1
    { st with block_storage := storage2 }
  else st

/-- Shallow embedding of `InmemoryBlockStore::save` (inmemory_block_store.rs
lines 26-30): delegates to `store` and always returns `Ok`. -/
def InmemoryBlockStore.save (st : InmemoryBlockStore) (block : ProducedBlock) :
    Except String InmemoryBlockStore :=
  Except.ok (st.store block)

/-- Helper for C9: a found slot is among the map's keys. -/
theorem lookupSlot_mem_keys (m : BlockMap) (s : Nat) (x : ProducedBlock)
    (h : lookupSlot m s = some x) : s ∈ m.map Prod.fst := by
  induction m with
  | nil => simp [lookupSlot] at h
  | cons e rest ih =>
    rcases e with ⟨k, b⟩
    by_cases hk : k = s
    · simp [hk]
    · simp only [lookupSlot, if_neg hk] at h
      simp [ih h]

/-- Helper for C9: on a sorted map the head key bounds every key below. -/
theorem minSlotOf_le_of_mem (m : BlockMap) (s : Nat)
    (hsort : SortedKeys m) (hm : s ∈ m.map Prod.fst) : minSlotOf m ≤ s := by
  cases m with
  | nil => simp at hm
  | cons e rest =>
    rcases e with ⟨k, b⟩
    simp only [minSlotOf, List.head?]
    simp only [List.map_cons, List.mem_cons] at hm
    rcases hm with rfl | hm2
    · exact le_refl s
    · exact le_of_lt ((List.pairwise_cons.mp hsort).1 s hm2)

/-- Helper for C9: inserting at a slot makes it the looked-up value. -/
theorem lookupSlot_insertSorted_self (m : BlockMap) (s : Nat)
    (b : ProducedBlock) : lookupSlot (insertSorted s b m) s = some b := by
  induction m with
  | nil => simp [insertSorted, lookupSlot]
  | cons e rest ih =>
    rcases e with ⟨k, x⟩
    by_cases h1 : s < k
    · simp [insertSorted, h1, lookupSlot]
    · by_cases h2 : s = k
      · simp [insertSorted, h1, h2, lookupSlot]
      · simp only [insertSorted, if_neg h1, if_neg h2, lookupSlot]
        rw [if_neg (fun hk => h2 hk.symm)]
        exact ih

/-- Helper for C9: inserting at a slot leaves all other slots unchanged. -/
theorem lookupSlot_insertSorted_other (m : BlockMap) (s t : Nat)
    (b : ProducedBlock) (hts : t ≠ s) :
    lookupSlot (insertSorted s b m) t = lookupSlot m t := by
  induction m with
  | nil =>
    simp only [insertSorted, lookupSlot]
    rw [if_neg (fun hk => hts hk.symm)]
  | cons e rest ih =>
    rcases e with ⟨k, x⟩
    by_cases h1 : s < k
    · simp only [insertSorted, if_pos h1, lookupSlot]
      rw [if_neg (fun hk => hts hk.symm)]
    · by_cases h2 : s = k
      · subst h2
        simp only [insertSorted, if_neg h1, if_pos rfl, lookupSlot]
        rw [if_neg (fun hk => hts hk.symm), if_neg (fun hk => hts hk.symm)]
      · simp only [insertSorted, if_neg h1, if_neg h2, lookupSlot]
        by_cases hk : k = t
        · simp [hk]
        · rw [if_neg hk, if_neg hk]
          exact ih

/-- Helper for C9: overwriting an existing slot does not change the map's
size. -/
theorem length_insertSorted_of_mem (m : BlockMap) (s : Nat)
    (b x : ProducedBlock) (hsort : SortedKeys m)
    (h : lookupSlot m s = some x) :
    (insertSorted s b m).length = m.length := by
  induction m with
  | nil => simp [lookupSlot] at h
  | cons e rest ih =>
    rcases e with ⟨k, y⟩
    by_cases h2 : k = s
    · subst h2
      simp [insertSorted]
    · have hlk : lookupSlot rest s = some x := by
        simpa [lookupSlot, h2] using h
      have hmem := lookupSlot_mem_keys rest s x hlk
      have hks : k < s := (List.pairwise_cons.mp hsort).1 s hmem
      have hsk : ¬ s = k := fun hh => h2 hh.symm
      simp only [insertSorted, if_neg (show ¬ s < k by omega), if_neg hsk,
        List.length_cons]
      rw [ih (List.pairwise_cons.mp hsort).2 hlk]

/-- C9: on a well-formed store (sorted keys, size within capacity), saving a
block for a slot that already holds a stored block replaces it iff the new
block's commitment ordinal is strictly higher than the stored one's; with an
equal or lower commitment the whole map is unchanged; other slots are never
affected; and the commitment of the block stored at that slot never
decreases. -/
theorem block_store_commitment_monotonic (st : InmemoryBlockStore)
    (block old : ProducedBlock)
    (hsort : SortedKeys st.block_storage)
    (hcap : st.block_storage.length ≤ st.number_of_blocks_to_store)
    (hold : lookupSlot st.block_storage block.slot = some old) :
    (st.store block).block_storage =
      (if commitmentGt block.commitment_config old.commitment_config then
        insertSorted block.slot block st.block_storage
      else st.block_storage) ∧
    lookupSlot (st.store block).block_storage block.slot =
      some (if commitmentGt block.commitment_config old.commitment_config
        then block else old) ∧
    (∀ s, s ≠ block.slot →
      lookupSlot (st.store block).block_storage s =
        lookupSlot st.block_storage s) ∧
    (∀ new, lookupSlot (st.store block).block_storage block.slot = some new →
      old.commitment_config.ord ≤ new.commitment_config.ord) := by
  have hmin : minSlotOf st.block_storage ≤ block.slot :=
    minSlotOf_le_of_mem _ _ hsort (lookupSlot_mem_keys _ _ _ hold)
  have hmain : (st.store block).block_storage =
      (if commitmentGt block.commitment_config old.commitment_config then
        insertSorted block.slot block st.block_storage
      else st.block_storage) := by
    unfold InmemoryBlockStore.store
    rw [if_pos hmin, hold]
    by_cases hgt : commitmentGt block.commitment_config old.commitment_config
    · have hlen := length_insertSorted_of_mem st.block_storage block.slot
        block old hsort hold
      simp only [hgt, if_true]
      rw [if_neg (by omega)]
    · rw [Bool.not_eq_true] at hgt
      simp only [hgt, Bool.false_eq_true, if_false]
      rw [if_neg (by omega)]
  refine ⟨hmain, ?_, ?_, ?_⟩
  · rw [hmain]
    by_cases hgt : commitmentGt block.commitment_config old.commitment_config
    · simp only [hgt, if_true]
      exact lookupSlot_insertSorted_self _ _ _
    · rw [Bool.not_eq_true] at hgt
      simp only [hgt, Bool.false_eq_true, if_false]
      exact hold
  · intro s hs
    rw [hmain]
    by_cases hgt : commitmentGt block.commitment_config old.commitment_config
    · simp only [hgt, if_true]
      exact lookupSlot_insertSorted_other _ _ _ _ hs
    · rw [Bool.not_eq_true] at hgt
      simp only [hgt, Bool.false_eq_true, if_false]
  · intro new hnew
    rw [hmain] at hnew
    by_cases hgt : commitmentGt block.commitment_config old.commitment_config
    · rw [if_pos hgt, lookupSlot_insertSorted_self] at hnew
      cases hnew
      simp only [commitmentGt, decide_eq_true_eq] at hgt
      omega
    · rw [if_neg hgt, hold] at hnew
      cases hnew
      exact le_refl _

/-- Witness for C9's theorem: a stored processed block at slot 5 is upgraded
by a confirmed block at the same slot. -/
theorem block_store_commitment_monotonic_witness :
    (InmemoryBlockStore.store ⟨[(5, ⟨5, .processed, 0⟩)], 10⟩
        ⟨5, .confirmed, 1⟩).block_storage =
      (if commitmentGt Commitment.confirmed Commitment.processed then
        insertSorted 5 ⟨5, .confirmed, 1⟩ [(5, ⟨5, .processed, 0⟩)]
      else [(5, ⟨5, .processed, 0⟩)]) :=
  (block_store_commitment_monotonic ⟨[(5, ⟨5, .processed, 0⟩)], 10⟩
    ⟨5, .confirmed, 1⟩ ⟨5, .processed, 0⟩ (by decide) (by decide) (by decide)).1

/-- C10: on a non-empty store, a block whose slot lies strictly below every
stored slot (hence below the smallest) is silently dropped: `store` leaves
the state completely unchanged and `save` still returns `Ok` with the
unchanged state — no error, no insertion, no eviction. -/
theorem block_store_ignores_below_min (st : InmemoryBlockStore)
    (block : ProducedBlock)
    (hne : st.block_storage ≠ [])
    (hmin : ∀ p ∈ st.block_storage, block.slot < p.1) :
    st.store block = st ∧ st.save block = Except.ok st := by
  have hlt : block.slot < minSlotOf st.block_storage := by
    cases hm : st.block_storage with
    | nil => exact absurd hm hne
    | cons e rest =>
      rcases e with ⟨k, b⟩
      have := hmin (k, b) (by rw [hm]; exact List.mem_cons_self _ _)
      simpa [minSlotOf] using this
  have hstore : st.store block = st := by
    unfold InmemoryBlockStore.store
    rw [if_neg (by omega)]
  exact ⟨hstore, by rw [InmemoryBlockStore.save, hstore]⟩

/-- Witness for C10's theorem: a store holding slots 7 and 9 ignores a block
at slot 3. -/
theorem block_store_ignores_below_min_witness :
    InmemoryBlockStore.store
        ⟨[(7, ⟨7, .confirmed, 0⟩), (9, ⟨9, .confirmed, 0⟩)], 10⟩
        ⟨3, .finalized, 0⟩ =
      ⟨[(7, ⟨7, .confirmed, 0⟩), (9, ⟨9, .confirmed, 0⟩)], 10⟩ :=
  (block_store_ignores_below_min
    ⟨[(7, ⟨7, .confirmed, 0⟩), (9, ⟨9, .confirmed, 0⟩)], 10⟩
    ⟨3, .finalized, 0⟩ (by decide)
    (by intro p hp
        rcases List.mem_cons.mp hp with rfl | hp2
        · decide
        · rcases List.mem_cons.mp hp2 with rfl | hp3
          · decide
          · cases hp3)).1

end LiteRpc
